import Mathlib

/-!
Shallow embedding of src/lineageprofiler.py (CellProfiler-Analyst lineage
profiler) and proofs about its plate-addressing, timeline and lineage-tree
operations.

Modelling conventions:
- Python lists become Lean lists; Python set(...) becomes List.dedup (claims
  proved here are insensitive to the unspecified iteration order of Python
  sets and dictionaries, so a deterministic first-occurrence order is used).
- Timepoints are naturals (the source only compares them with >).
- Python failures (KeyError, IndexError, assertion errors) become Option
  results with none marking the failure.
- Python compares Event tuples by object identity.  Every signature tuple
  built by the source is an order-preserving filter of the single event list
  of one Timeline by a predicate on event field values, so two signatures are
  identity-equal iff they are value-equal (lemma filter_eq_filter_iff below).
  Events are therefore modelled as a structure compared by value.
-/

/-- Row-label alphabet from line 2 of the source. -/
def alphabet : String := "ABCDEFGHIJKLMNOPQRSTUVWXYZabcdefghijklmnopqrstuvwxyz"

/-- Plate format constant P6 = (2, 3). -/
def P6 : Nat × Nat := (2, 3)

/-- Plate format constant P96 = (8, 12). -/
def P96 : Nat × Nat := (8, 12)

/-- Plate format constant P384 = (16, 24). -/
def P384 : Nat × Nat := (16, 24)

/-- Plate format constant P1536 = (32, 48). -/
def P1536 : Nat × Nat := (32, 48)

/-- Plate format constant P5600 = (40, 140). -/
def P5600 : Nat × Nat := (40, 140)

/-- Sentinel action label meaning an explicit no-op. -/
def NO_EVENT : String := "no event"

/-- Little-endian decimal digits of a natural number, with explicit fuel so
that the definition is structurally recursive and kernel-evaluable. -/
def decDigitsAux : Nat → Nat → List Nat
  | 0, _ => []
  | _ + 1, 0 => []
  | fuel + 1, n + 1 => ((n + 1) % 10) :: decDigitsAux fuel ((n + 1) / 10)

/-- Little-endian decimal digits of n (empty for 0). -/
def decDigits (n : Nat) : List Nat := decDigitsAux n n

/-- Character for a single decimal digit d (0 ≤ d ≤ 9). -/
def digitChar (d : Nat) : Char := Char.ofNat (48 + d)

/-- Big-endian decimal character rendering of n, the semantics of the Python
format directive %d on a positive integer. -/
def decRepr (n : Nat) : List Char := (decDigits n).reverse.map digitChar

/-- Semantics of the Python format directive %02d: the decimal rendering
padded with leading zeros to a minimum width of 2 (numbers of 3 or more
digits render with all their digits, no truncation). -/
def pad2 (n : Nat) : List Char :=
  if (decRepr n).length < 2 then
    List.replicate (2 - (decRepr n).length) '0' ++ decRepr n
  else
    decRepr n

/-- Well identifier built by line 31 of the source: the row character
followed by the column number rendered with %02d. -/
def wellId (ch : Char) (num : Nat) : String := String.mk (ch :: pad2 num)

/-- Decimal re-reading of a character list (left fold, each character
contributing its value minus 48); left inverse of pad2, used to prove the
injectivity of well-identifier rendering. -/
def parseChars (l : List Char) : Nat :=
  l.foldl (fun acc c => acc * 10 + (c.toNat - 48)) 0

/-- The global PlateDesign.plates dictionary, modelled as an explicit
association list in which the most recent binding of a key wins. -/
abbrev Registry := List (String × (Nat × Nat))

namespace PlateDesign

/-- Model of PlateDesign.add_plate: registers (or re-registers) a plate id
with the given plate format. -/
def add_plate (reg : Registry) (plate_id : String) (plate_format : Nat × Nat) :
    Registry :=
  (plate_id, plate_format) :: reg

/-- Model of PlateDesign.get_plate_format: dictionary lookup; none models the
Python KeyError raised for an unregistered plate id. -/
def get_plate_format (reg : Registry) (plate_id : String) : Option (Nat × Nat) :=
  (reg.find? (fun q => q.1 == plate_id)).map (fun q => q.2)

/-- Model of PlateDesign.get_well_ids: the list comprehension of line 31,
iterating the first rowCount characters of the alphabet and, for each, the
column numbers 1 .. colCount. -/
def get_well_ids (plate_format : Nat × Nat) : List String :=
  (alphabet.toList.take plate_format.1).flatMap
    (fun ch => (List.range plate_format.2).map (fun k => wellId ch (k + 1)))

/-- Model of PlateDesign.get_well_id_from_row_col: the two assertions become
the bounds test (none models the assertion failure), and indexing the numpy
reshape of the row-major enumeration at (row, col) is flat indexing at
row * colCount + col, which is the numpy reshape semantics. -/
def get_well_id_from_row_col (plate_format : Nat × Nat) (rc : Nat × Nat) :
    Option String :=
  if rc.1 < plate_format.1 ∧ rc.2 < plate_format.2 then
    (get_well_ids plate_format)[rc.1 * plate_format.2 + rc.2]?
  else none

end PlateDesign

/-- Model of the Event class: an immutable record of one action applied to a
set of wells on a plate at a timepoint. -/
structure Event where
  timepoint : Nat
  action : String
  plate_id : String
  well_ids : List String
deriving DecidableEq

/-- Model of the Timeline class state: the stock label, the event sequence
and the informational plate list (the latter is never touched by any modelled
operation, exactly as in the source). -/
structure Timeline where
  stock : String
  events : List Event
  plates : List String
deriving DecidableEq

/-- Generic insertion step of an insertion sort parameterised by a Boolean
comparison; used to model the Python sorted builtin. -/
def insertLeBy (le : α → α → Bool) (x : α) : List α → List α
  | [] => [x]
  | y :: ys => if le x y then x :: y :: ys else y :: insertLeBy le x ys

/-- Insertion sort parameterised by a Boolean comparison; structurally
recursive model of the Python sorted builtin. -/
def sortBy (le : α → α → Bool) : List α → List α
  | [] => []
  | x :: xs => insertLeBy le x (sortBy le xs)

/-- Ascending sort on naturals (Python sorted on timepoints). -/
def sortNat : List Nat → List Nat := sortBy (fun a b => decide (a ≤ b))

/-- Ascending sort on strings (Python sorted on well identifiers). -/
def sortStr : List String → List String := sortBy (fun a b => decide (a ≤ b))

namespace Timeline

/-- Model of Timeline.__init__: empty event list, empty plate list. -/
def init (stock : String) : Timeline := ⟨stock, [], []⟩

/-- Model of the descending scan of Timeline.add_event, expressed on the
reversed event list: the Python loop walks i from the last index down to 0
and inserts at i + 1 as soon as the new timepoint is strictly greater than
the timepoint at i, or unconditionally once i reaches 0.  On the reversed
list that is: place the new event in front of the first element it strictly
dominates, and in front of the final element (the original head) otherwise. -/
def insertFromEnd : List Event → Event → List Event
  | [], evt => [evt]
  | [x], evt => [evt, x]
  | x :: y :: xs, evt =>
    if evt.timepoint > x.timepoint then evt :: x :: y :: xs
    else x :: insertFromEnd (y :: xs) evt

/-- Model of Timeline.add_event: creates the Event and inserts it with the
descending scan (the Python method also returns the created event; the model
returns the updated Timeline, the state effect). -/
def add_event (tl : Timeline) (timepoint : Nat) (action : String)
    (plate_id : String) (well_ids : List String) : Timeline :=
  let evt : Event := ⟨timepoint, action, plate_id, well_ids⟩
  if tl.events = [] then { tl with events := [evt] }
  else { tl with events := (insertFromEnd tl.events.reverse evt).reverse }

/-- Model of Timeline.get_event_list: returns the event sequence (the
defensive copy of the source is the identity in a pure embedding). -/
def get_event_list (tl : Timeline) : List Event := tl.events

/-- Model of Timeline.get_well_ids with timepoint = None: deduplicated union
of the wells of all events. -/
def get_well_ids_all (tl : Timeline) : List String :=
  (tl.get_event_list.flatMap (fun e => e.well_ids)).dedup

/-- Model of Timeline.get_well_ids with an explicit timepoint: deduplicated
union of the wells of the events at that timepoint. -/
def get_well_ids_at (tl : Timeline) (timepoint : Nat) : List String :=
  ((tl.get_event_list.filter (fun e => e.timepoint == timepoint)).flatMap
    (fun e => e.well_ids)).dedup

/-- Model of Timeline.get_events_at_timepoint: the events with exactly the
given timepoint, in log order. -/
def get_events_at_timepoint (tl : Timeline) (timepoint : Nat) : List Event :=
  tl.events.filter (fun e => e.timepoint == timepoint)

/-- Model of Timeline.get_events_in_well: the events at the timepoint whose
affected-well list contains the given well, in log order. -/
def get_events_in_well (tl : Timeline) (well : String) (timepoint : Nat) :
    List Event :=
  (tl.get_events_at_timepoint timepoint).filter
    (fun e => decide (well ∈ e.well_ids))

/-- Model of Timeline.get_unique_timepoints: ascending sort of the
deduplicated timepoints. -/
def get_unique_timepoints (tl : Timeline) : List Nat :=
  sortNat ((tl.events.map (fun e => e.timepoint)).dedup)

/-- Model of Timeline.get_well_permutations: every well of the plate format
is keyed by its event signature (its get_events_in_well tuple) and wells
sharing a key form one group.  The dictionary of the source is rendered as
the list of distinct keys in first-occurrence order, each mapped to the wells
carrying it; the source returns these groups as an unordered set, and every
claim proved about them is insensitive to the order. -/
def get_well_permutations (tl : Timeline) (timepoint : Nat)
    (plate_format : Nat × Nat) : List (List String) :=
  (((PlateDesign.get_well_ids plate_format).map
      (fun w => tl.get_events_in_well w timepoint)).dedup).map
    (fun s => (PlateDesign.get_well_ids plate_format).filter
      (fun w => decide (tl.get_events_in_well w timepoint = s)))

end Timeline

/-- Well enumeration of the registered geometry of a plate id.  The source
raises KeyError for an unregistered plate id inside get_event_permutations;
the none branch returns [] and every theorem touching it carries the
hypothesis that the plate ids in play are registered. -/
def wellsOfPlate (reg : Registry) (plate_id : String) : List String :=
  match PlateDesign.get_plate_format reg plate_id with
  | some pf => PlateDesign.get_well_ids pf
  | none => []

namespace Timeline

/-- Signature accumulated for one well by the dictionary loop of
Timeline.get_event_permutations: the events at the timepoint whose plate
geometry enumerates the well and whose affected-well list contains it, in
log order. -/
def eventSig (reg : Registry) (tl : Timeline) (timepoint : Nat) (well : String) :
    List Event :=
  (tl.get_events_at_timepoint timepoint).filter
    (fun e => decide (well ∈ wellsOfPlate reg e.plate_id) &&
              decide (well ∈ e.well_ids))

/-- The wells that receive a dictionary entry in
Timeline.get_event_permutations: wells enumerated by the plate geometry of
some event at the timepoint and contained in the affected-well list of that
event, in first-occurrence order. -/
def touchedWells (reg : Registry) (tl : Timeline) (timepoint : Nat) :
    List String :=
  ((tl.get_events_at_timepoint timepoint).flatMap
    (fun e => (wellsOfPlate reg e.plate_id).filter
      (fun w => decide (w ∈ e.well_ids)))).dedup

/-- Model of Timeline.get_event_permutations: the distinct event signatures
of the touched wells. -/
def get_event_permutations (reg : Registry) (tl : Timeline) (timepoint : Nat) :
    List (List Event) :=
  ((touchedWells reg tl timepoint).map (fun w => eventSig reg tl timepoint w)).dedup

end Timeline

/-- Model of the LineageNode class: id, wells, timepoint and exclusively
owned children.  The parent back-reference of the source is non-owning and
is represented by the tree structure itself; the console print in the
constructor is an observability side effect with no bearing on state. -/
inductive LineageNode where
  | mk (id : String) (wells : List String) (timepoint : Nat)
       (children : List LineageNode)

/-- Node id accessor. -/
def LineageNode.nodeId : LineageNode → String
  | .mk i _ _ _ => i

/-- Model of LineageNode.get_well_ids. -/
def LineageNode.wells : LineageNode → List String
  | .mk _ w _ _ => w

/-- Node timepoint accessor. -/
def LineageNode.timepoint : LineageNode → Nat
  | .mk _ _ t _ => t

/-- Model of LineageNode.get_children. -/
def LineageNode.children : LineageNode → List LineageNode
  | .mk _ _ _ c => c

namespace Timeline

/-- The subwells list built by attach_child_nodes for one timepoint: each
well permutation group is intersected with the parent wells (set
intersection, rendered as a deduplicated filter, then sorted as in the
source) and empty intersections are dropped.  The geometry is the hardcoded
P6 of source line 125. -/
def subwellsAt (tl : Timeline) (timepoint : Nat) (pwells : List String) :
    List (List String) :=
  (tl.get_well_permutations timepoint P6).filterMap (fun g =>
    if (sortStr ((pwells.filter (fun w => decide (w ∈ g))).dedup)).isEmpty then
      none
    else
      some (sortStr ((pwells.filter (fun w => decide (w ∈ g))).dedup)))

/-- The recursive build of build_tree and attach_child_nodes: given the
unique timepoints strictly after the timepoint of the parent, attach one
child per non-empty intersection (ids extend the parent id with the
positional index) and recurse into each child with the remaining
timepoints. -/
def buildChildren (tl : Timeline) : List Nat → String → List String →
    List LineageNode
  | [], _, _ => []
  | tp :: rest, pid, pwells =>
    (tl.subwellsAt tp pwells).enum.map (fun p =>
      LineageNode.mk (pid ++ ":" ++ toString p.1) p.2 tp
        (buildChildren tl rest (pid ++ ":" ++ toString p.1) p.2))

/-- Model of Timeline.get_lineage_tree: the root carries the stock label,
the union of all event wells and the earliest unique timepoint; none models
the IndexError raised at source line 145 when the timeline has no events
(the EmptyTimeline failure of the specification). -/
def get_lineage_tree (tl : Timeline) : Option LineageNode :=
  match tl.get_unique_timepoints with
  | [] => none
  | tp0 :: rest =>
    some (LineageNode.mk tl.stock tl.get_well_ids_all tp0
      (buildChildren tl rest tl.stock tl.get_well_ids_all))

end Timeline

/-- Structural well-formedness of a lineage tree, as claimed by the
specification: every child owns a subset of the wells of its node, the
children of a node have pairwise disjoint well sets, and for a node with
children the union of the child well sets is the intersection of the node
wells with the set of wells defined at the child timepoint.  The builder
hardcodes the P6 geometry (source line 125), so the set of wells defined at
every child timepoint is the P6 well enumeration. -/
inductive TreeOK : LineageNode → Prop where
  | mk (n : LineageNode)
      (hsub : ∀ c ∈ n.children, ∀ w ∈ c.wells, w ∈ n.wells)
      (hdisj : n.children.Pairwise (fun c1 c2 => ∀ w, w ∈ c1.wells → w ∉ c2.wells))
      (huni : n.children ≠ [] → ∀ w,
        (∃ c ∈ n.children, w ∈ c.wells) ↔
          (w ∈ n.wells ∧ w ∈ PlateDesign.get_well_ids P6))
      (hrec : ∀ c ∈ n.children, TreeOK c) : TreeOK n

/-- Concrete timeline of the six-well scenario: all six wells seeded at
timepoint 1; at timepoint 2 action X on A01 A02 A03 B03, action Y on A02 B02
B03, and the no-event sentinel on the remaining well B01. -/
def tlScenario : Timeline :=
  ((((Timeline.init "U2OS").add_event 1 "seed" "fred"
      (PlateDesign.get_well_ids P6)).add_event 2 "X" "fred"
      ["A01", "A02", "A03", "B03"]).add_event 2 "Y" "fred"
      ["A02", "B02", "B03"]).add_event 2 NO_EVENT "fred" ["B01"]

/-- Registry of the six-well scenario: the plate fred has format P6. -/
def regScenario : Registry := PlateDesign.add_plate [] "fred" P6

/-- Timeline with a single event whose affected well Z99 is not generated by
the P6 geometry of its plate. -/
def tlOffPlate : Timeline :=
  (Timeline.init "s").add_event 1 "X" "p" ["Z99"]

/-- Registry for the off-plate example: the plate p has format P6. -/
def regOffPlate : Registry := PlateDesign.add_plate [] "p" P6

/-- Timeline holding two events added with timepoints 3 then 1. -/
def tlOutOfOrder : Timeline :=
  ((Timeline.init "s").add_event 3 "a" "p" []).add_event 1 "b" "p" []

/-- Empty timeline used as witness input. -/
def tlEmpty : Timeline := Timeline.init "U2OS"

/-- Single-event timeline used as witness input for the lineage tree. -/
def tlOne : Timeline := (Timeline.init "U2OS").add_event 1 "seed" "fred" ["A01"]

/-! ## Generic list lemmas -/

/-- Two filters of one list are equal exactly when their predicates agree on
every element of the list.  This is the reason the value-level model of event
signatures coincides with the object-identity comparison performed by the
Python dictionaries: every signature is a filter of the one event list by a
predicate on event values. -/
theorem filter_eq_filter_iff {α : Type} (p q : α → Bool) (l : List α) :
    l.filter p = l.filter q ↔ ∀ x ∈ l, p x = q x := by
  induction l with
  | nil => simp
  | cons a l ih =>
    by_cases hp : p a = true <;> by_cases hq : q a = true
    · rw [List.filter_cons_of_pos hp, List.filter_cons_of_pos hq]
      simp [ih, hp, hq]
    · constructor
      · intro h
        exfalso
        have hcons : a :: List.filter p l = List.filter q l := by
          rw [← List.filter_cons_of_pos hp, h, List.filter_cons_of_neg hq]
        have ha : a ∈ List.filter q l := hcons ▸ List.mem_cons_self a (List.filter p l)
        exact hq (List.of_mem_filter ha)
      · intro h
        exact absurd ((h a (List.mem_cons_self a l)).symm.trans hp) hq
    · constructor
      · intro h
        exfalso
        have hcons : a :: List.filter q l = List.filter p l := by
          rw [← List.filter_cons_of_pos hq, ← h, List.filter_cons_of_neg hp]
        have ha : a ∈ List.filter p l := hcons ▸ List.mem_cons_self a (List.filter q l)
        exact hp (List.of_mem_filter ha)
      · intro h
        exact absurd ((h a (List.mem_cons_self a l)).trans hq) hp
    · rw [List.filter_cons_of_neg hp, List.filter_cons_of_neg hq]
      have hp2 : p a = false := by revert hp; cases p a <;> simp
      have hq2 : q a = false := by revert hq; cases q a <;> simp
      simp [ih, hp2, hq2]

/-- Membership in the insertion step of the sort model. -/
theorem mem_insertLeBy {α : Type} (le : α → α → Bool) (x y : α) (l : List α) :
    y ∈ insertLeBy le x l ↔ y = x ∨ y ∈ l := by
  induction l with
  | nil => simp [insertLeBy]
  | cons z l ih =>
    unfold insertLeBy
    split
    · simp
    · simp [ih]
      tauto

/-- Membership is preserved by the sort model. -/
theorem mem_sortBy {α : Type} (le : α → α → Bool) (x : α) (l : List α) :
    x ∈ sortBy le l ↔ x ∈ l := by
  induction l with
  | nil => simp [sortBy]
  | cons z l ih =>
    unfold sortBy
    rw [mem_insertLeBy]
    simp [ih]

/-- Pairwise on the enumeration of a list, for a relation reading only the
element component. -/
theorem pairwise_enum_of_pairwise {α : Type} {R : α → α → Prop} (l : List α)
    (h : l.Pairwise R) : l.enum.Pairwise (fun p q => R p.2 q.2) := by
  have h2 : (l.enum.map Prod.snd).Pairwise R := by
    rw [List.enum_map_snd]
    exact h
  exact List.pairwise_map.mp h2

/-! ## Decimal rendering: correctness and injectivity -/

/-- Value of a digit character. -/
theorem digitChar_toNat {d : Nat} (h : d < 10) : (digitChar d).toNat = 48 + d := by
  interval_cases d <;> decide

/-- Left fold of the decimal re-reading over a rendered digit string. -/
theorem parse_decDigitsAux (fuel : Nat) : ∀ (n a : Nat), n ≤ fuel →
    ((decDigitsAux fuel n).reverse.map digitChar).foldl
      (fun acc c => acc * 10 + (c.toNat - 48)) a
      = a * 10 ^ (decDigitsAux fuel n).length + n := by
  induction fuel with
  | zero =>
    intro n a hn
    interval_cases n
    simp [decDigitsAux]
  | succ fuel ih =>
    intro n a hn
    match n with
    | 0 => simp [decDigitsAux]
    | m + 1 =>
      have hstep : decDigitsAux (fuel + 1) (m + 1)
          = ((m + 1) % 10) :: decDigitsAux fuel ((m + 1) / 10) := rfl
      rw [hstep]
      have hdiv : (m + 1) / 10 ≤ fuel := by
        have h1 : (m + 1) / 10 < m + 1 := Nat.div_lt_self (Nat.succ_pos m) (by omega)
        omega
      simp only [List.reverse_cons, List.map_append, List.map_cons, List.map_nil,
        List.foldl_append, List.foldl_cons, List.foldl_nil, List.length_cons]
      rw [ih ((m + 1) / 10) a hdiv]
      rw [digitChar_toNat (Nat.mod_lt _ (by omega))]
      have hsub : 48 + (m + 1) % 10 - 48 = (m + 1) % 10 := by omega
      rw [hsub]
      have hdm := Nat.div_add_mod (m + 1) 10
      calc (a * 10 ^ (decDigitsAux fuel ((m + 1) / 10)).length + (m + 1) / 10) * 10
            + (m + 1) % 10
          = a * 10 ^ ((decDigitsAux fuel ((m + 1) / 10)).length + 1)
            + (10 * ((m + 1) / 10) + (m + 1) % 10) := by ring
        _ = a * 10 ^ ((decDigitsAux fuel ((m + 1) / 10)).length + 1) + (m + 1) := by
            rw [hdm]

/-- The decimal re-reading inverts the decimal rendering. -/
theorem parse_decRepr (n : Nat) : parseChars (decRepr n) = n := by
  have h := parse_decDigitsAux n n 0 le_rfl
  simpa [parseChars, decRepr, decDigits] using h

/-- Leading zero characters do not change the decimal re-reading. -/
theorem foldl_replicate_zero (k : Nat) :
    (List.replicate k '0').foldl (fun acc c => acc * 10 + (c.toNat - 48)) 0 = 0 := by
  induction k with
  | zero => rfl
  | succ k ih => simpa [List.replicate_succ] using ih

/-- The decimal re-reading inverts the %02d rendering. -/
theorem parse_pad2 (n : Nat) : parseChars (pad2 n) = n := by
  unfold pad2
  split
  · rw [show parseChars (List.replicate (2 - (decRepr n).length) '0' ++ decRepr n)
        = (decRepr n).foldl (fun acc c => acc * 10 + (c.toNat - 48))
            ((List.replicate (2 - (decRepr n).length) '0').foldl
              (fun acc c => acc * 10 + (c.toNat - 48)) 0) from List.foldl_append ..]
    rw [foldl_replicate_zero]
    exact parse_decRepr n
  · exact parse_decRepr n

/-- The %02d rendering is injective. -/
theorem pad2_inj {n1 n2 : Nat} (h : pad2 n1 = pad2 n2) : n1 = n2 := by
  rw [← parse_pad2 n1, ← parse_pad2 n2, h]

/-- The %02d rendering always has at least two characters. -/
theorem two_le_pad2_length (n : Nat) : 2 ≤ (pad2 n).length := by
  unfold pad2
  split
  · rw [List.length_append, List.length_replicate]
    omega
  · omega

/-- Well identifiers determine their row character and column number. -/
theorem wellId_inj {c1 c2 : Char} {n1 n2 : Nat} (h : wellId c1 n1 = wellId c2 n2) :
    c1 = c2 ∧ n1 = n2 := by
  have hd : c1 :: pad2 n1 = c2 :: pad2 n2 := congrArg String.data h
  have h1 : c1 = c2 := by injection hd
  have h2 : pad2 n1 = pad2 n2 := by injection hd
  exact ⟨h1, pad2_inj h2⟩

/-- The 52 row-label characters are pairwise distinct. -/
theorem alphabet_nodup : alphabet.toList.Nodup := by decide

/-- The row-label alphabet has 52 characters. -/
theorem alphabet_length : alphabet.toList.length = 52 := by decide

/-! ## Plate addressing: length, distinctness, row-major indexing -/

/-- Sum of a constant map. -/
theorem sum_map_const {α : Type} (l : List α) (c : Nat) :
    (l.map (fun _ => c)).sum = l.length * c := by
  induction l with
  | nil => simp
  | cons a l ih =>
    simp only [List.map_cons, List.sum_cons, List.length_cons, ih]
    ring

/-- Flat indexing into a concatenation of blocks of uniform length. -/
theorem flatMap_getElem? (f : Char → List String) (cols : Nat)
    (hf : ∀ ch, (f ch).length = cols) :
    ∀ (l : List Char) (r c : Nat), r < l.length → c < cols →
      (l.flatMap f)[r * cols + c]? = (f (l.getD r 'A'))[c]? := by
  intro l
  induction l with
  | nil =>
    intro r c hr _
    exact absurd hr (Nat.not_lt_zero r)
  | cons ch l ih =>
    intro r c hr hc
    cases r with
    | zero =>
      rw [List.flatMap_cons, List.getElem?_append_left (by rw [hf]; omega)]
      simp
    | succ r =>
      rw [List.flatMap_cons, List.getElem?_append_right (by rw [hf, Nat.succ_mul]; omega)]
      rw [hf]
      have hidx : (r + 1) * cols + c - cols = r * cols + c := by
        rw [Nat.succ_mul]; omega
      rw [hidx, List.getD_cons_succ]
      exact ih r c (by simpa using hr) hc

/-- Length of the well enumeration: rowCount times colCount whenever the
alphabet covers the rows. -/
theorem get_well_ids_length (pf : Nat × Nat) (h52 : pf.1 ≤ 52) :
    (PlateDesign.get_well_ids pf).length = pf.1 * pf.2 := by
  unfold PlateDesign.get_well_ids
  rw [List.length_flatMap]
  have hmap : ((alphabet.toList.take pf.1).map
        (List.length ∘ fun ch => (List.range pf.2).map (fun k => wellId ch (k + 1))))
      = (alphabet.toList.take pf.1).map (fun _ => pf.2) := by
    apply List.map_congr_left
    intro ch _
    simp
  rw [hmap, sum_map_const, List.length_take, alphabet_length,
    Nat.min_eq_left h52]

/-- The well enumeration never repeats an identifier. -/
theorem get_well_ids_nodup (pf : Nat × Nat) :
    (PlateDesign.get_well_ids pf).Nodup := by
  unfold PlateDesign.get_well_ids
  rw [List.nodup_flatMap]
  constructor
  · intro ch _
    refine List.Nodup.map ?_ (List.nodup_range _)
    intro a b hab
    have := (wellId_inj hab).2
    omega
  · have hnd : (alphabet.toList.take pf.1).Nodup :=
      List.Nodup.sublist (List.take_sublist _ _) alphabet_nodup
    refine List.Pairwise.imp ?_ hnd
    intro a b hne
    intro x hxa hxb
    rw [List.mem_map] at hxa hxb
    obtain ⟨k1, _, h1⟩ := hxa
    obtain ⟨k2, _, h2⟩ := hxb
    exact hne ((wellId_inj (h1.trans h2.symm)).1)

/-- Row-major indexing of the well enumeration: position row * colCount + col
holds the identifier of the row character and the 1-based column number. -/
theorem get_well_ids_getElem? (pf : Nat × Nat) (r c : Nat) (h52 : pf.1 ≤ 52)
    (hr : r < pf.1) (hc : c < pf.2) :
    (PlateDesign.get_well_ids pf)[r * pf.2 + c]? =
      some (wellId (alphabet.toList.getD r 'A') (c + 1)) := by
  unfold PlateDesign.get_well_ids
  rw [flatMap_getElem? _ pf.2 (fun ch => by simp) _ r c
      (by rw [List.length_take, alphabet_length]; omega) hc]
  have hgd : (alphabet.toList.take pf.1).getD r 'A' = alphabet.toList.getD r 'A' := by
    rw [List.getD_eq_getElem?_getD, List.getD_eq_getElem?_getD, List.getElem?_take,
      if_pos hr]
  rw [hgd]
  simp [List.getElem?_range hc]

/-! ## Well permutations: the total partition of the plate well space -/

namespace Timeline

/-- Every member of a well-permutation group is a well of the plate. -/
theorem wp_subset {tl : Timeline} {tp : Nat} {pf : Nat × Nat} {g : List String}
    (hg : g ∈ tl.get_well_permutations tp pf) {w : String} (hw : w ∈ g) :
    w ∈ PlateDesign.get_well_ids pf := by
  unfold get_well_permutations at hg
  rw [List.mem_map] at hg
  obtain ⟨s, _, rfl⟩ := hg
  exact (List.mem_filter.mp hw).1

/-- Every well of the plate lies in some well-permutation group, namely the
group keyed by its own event signature. -/
theorem wp_cover {tl : Timeline} {tp : Nat} {pf : Nat × Nat} {w : String}
    (hw : w ∈ PlateDesign.get_well_ids pf) :
    ∃ g ∈ tl.get_well_permutations tp pf, w ∈ g := by
  refine ⟨(PlateDesign.get_well_ids pf).filter
      (fun x => decide (tl.get_events_in_well x tp = tl.get_events_in_well w tp)),
    ?_, ?_⟩
  · unfold get_well_permutations
    rw [List.mem_map]
    exact ⟨tl.get_events_in_well w tp,
      List.mem_dedup.mpr (List.mem_map_of_mem _ hw), rfl⟩
  · exact List.mem_filter.mpr ⟨hw, by simp⟩

/-- A well lies in the group keyed by a signature exactly when the well is on
the plate and carries that signature. -/
theorem wp_mem_group_iff {tl : Timeline} {tp : Nat} {pf : Nat × Nat}
    {s : List Event} {w : String} :
    w ∈ (PlateDesign.get_well_ids pf).filter
        (fun x => decide (tl.get_events_in_well x tp = s)) ↔
      w ∈ PlateDesign.get_well_ids pf ∧ tl.get_events_in_well w tp = s := by
  rw [List.mem_filter]
  simp

/-- Distinct well-permutation groups are disjoint. -/
theorem wp_disjoint (tl : Timeline) (tp : Nat) (pf : Nat × Nat) :
    (tl.get_well_permutations tp pf).Pairwise
      (fun g1 g2 => ∀ w, w ∈ g1 → w ∉ g2) := by
  unfold get_well_permutations
  rw [List.pairwise_map]
  refine List.Pairwise.imp ?_ (List.nodup_dedup _)
  intro s1 s2 hne w hw1 hw2
  exact hne ((wp_mem_group_iff.mp hw1).2.symm.trans (wp_mem_group_iff.mp hw2).2)

/-- Two plate wells share a well-permutation group exactly when their event
signatures coincide. -/
theorem wp_same_group_iff {tl : Timeline} {tp : Nat} {pf : Nat × Nat}
    {w1 w2 : String} (h1 : w1 ∈ PlateDesign.get_well_ids pf)
    (h2 : w2 ∈ PlateDesign.get_well_ids pf) :
    (∃ g ∈ tl.get_well_permutations tp pf, w1 ∈ g ∧ w2 ∈ g) ↔
      tl.get_events_in_well w1 tp = tl.get_events_in_well w2 tp := by
  constructor
  · rintro ⟨g, hg, hw1, hw2⟩
    unfold get_well_permutations at hg
    rw [List.mem_map] at hg
    obtain ⟨s, _, rfl⟩ := hg
    rw [(wp_mem_group_iff.mp hw1).2, (wp_mem_group_iff.mp hw2).2]
  · intro hsig
    refine ⟨(PlateDesign.get_well_ids pf).filter
        (fun x => decide (tl.get_events_in_well x tp = tl.get_events_in_well w1 tp)),
      ?_, ?_, ?_⟩
    · unfold get_well_permutations
      rw [List.mem_map]
      exact ⟨tl.get_events_in_well w1 tp,
        List.mem_dedup.mpr (List.mem_map_of_mem _ h1), rfl⟩
    · exact wp_mem_group_iff.mpr ⟨h1, rfl⟩
    · exact wp_mem_group_iff.mpr ⟨h2, hsig.symm⟩

end Timeline

/-! ## Event permutations -/

namespace Timeline

/-- The touched wells are exactly the wells lying both in the registered
geometry of some event at the timepoint and in its affected-well list. -/
theorem mem_touchedWells {reg : Registry} {tl : Timeline} {tp : Nat} {w : String} :
    w ∈ touchedWells reg tl tp ↔
      ∃ e ∈ tl.get_events_at_timepoint tp,
        w ∈ wellsOfPlate reg e.plate_id ∧ w ∈ e.well_ids := by
  unfold touchedWells
  rw [List.mem_dedup, List.mem_flatMap]
  simp [List.mem_filter]

/-- A well carries a non-empty event signature exactly when some event at
the timepoint reaches it through its plate geometry. -/
theorem eventSig_ne_nil_iff {reg : Registry} {tl : Timeline} {tp : Nat} {w : String} :
    eventSig reg tl tp w ≠ [] ↔
      ∃ e ∈ tl.get_events_at_timepoint tp,
        w ∈ wellsOfPlate reg e.plate_id ∧ w ∈ e.well_ids := by
  unfold eventSig
  rw [Ne, List.filter_eq_nil_iff]
  push_neg
  simp

/-- Membership in an event signature. -/
theorem mem_eventSig {reg : Registry} {tl : Timeline} {tp : Nat} {w : String}
    {e : Event} :
    e ∈ eventSig reg tl tp w ↔
      e ∈ tl.get_events_at_timepoint tp ∧
        w ∈ wellsOfPlate reg e.plate_id ∧ w ∈ e.well_ids := by
  unfold eventSig
  rw [List.mem_filter]
  simp

/-- The returned event groups are exactly the signatures of touched wells. -/
theorem mem_event_permutations {reg : Registry} {tl : Timeline} {tp : Nat}
    {g : List Event} :
    g ∈ get_event_permutations reg tl tp ↔
      ∃ w, w ∈ touchedWells reg tl tp ∧ g = eventSig reg tl tp w := by
  unfold get_event_permutations
  rw [List.mem_dedup, List.mem_map]
  constructor
  · rintro ⟨w, hw, rfl⟩
    exact ⟨w, hw, rfl⟩
  · rintro ⟨w, hw, rfl⟩
    exact ⟨w, hw, rfl⟩

end Timeline

/-! ## Lineage tree -/

/-- Membership is preserved by the string sort. -/
theorem mem_sortStr (x : String) (l : List String) : x ∈ sortStr l ↔ x ∈ l :=
  mem_sortBy _ x l

/-- Every element of a list appears as the component of an enumeration pair. -/
theorem exists_enum_of_mem {α : Type} {l : List α} {x : α} (hx : x ∈ l) :
    ∃ p ∈ l.enum, p.2 = x := by
  have hx2 : x ∈ l.enum.map Prod.snd := by
    rw [List.enum_map_snd]
    exact hx
  rw [List.mem_map] at hx2
  obtain ⟨p, hp, h⟩ := hx2
  exact ⟨p, hp, h⟩

namespace Timeline

/-- Characterisation of the subwell lists attached below a parent: each is
the sorted non-empty intersection of the parent wells with one
well-permutation group. -/
theorem mem_subwellsAt {tl : Timeline} {tp : Nat} {pwells ws : List String} :
    ws ∈ tl.subwellsAt tp pwells ↔
      ∃ g ∈ tl.get_well_permutations tp P6,
        ws = sortStr ((pwells.filter (fun w => decide (w ∈ g))).dedup) ∧ ws ≠ [] := by
  unfold subwellsAt
  rw [List.mem_filterMap]
  constructor
  · rintro ⟨g, hg, hsome⟩
    by_cases hemp : (sortStr ((pwells.filter (fun w => decide (w ∈ g))).dedup)).isEmpty
    · rw [if_pos hemp] at hsome
      exact absurd hsome (by simp)
    · rw [if_neg hemp] at hsome
      obtain rfl := Option.some.inj hsome
      refine ⟨g, hg, rfl, ?_⟩
      intro hnil
      rw [hnil] at hemp
      exact hemp rfl
  · rintro ⟨g, hg, rfl, hne⟩
    refine ⟨g, hg, ?_⟩
    rw [if_neg ?_]
    intro h
    exact hne (List.isEmpty_iff.mp h)

/-- Elements of a subwell list belong to the parent wells and to the plate. -/
theorem subwells_mem {tl : Timeline} {tp : Nat} {pwells ws : List String}
    (hws : ws ∈ tl.subwellsAt tp pwells) {w : String} (hw : w ∈ ws) :
    w ∈ pwells ∧ w ∈ PlateDesign.get_well_ids P6 := by
  obtain ⟨g, hg, rfl, -⟩ := mem_subwellsAt.mp hws
  rw [mem_sortStr, List.mem_dedup, List.mem_filter] at hw
  obtain ⟨hwp, hwg⟩ := hw
  exact ⟨hwp, wp_subset hg (by simpa using hwg)⟩

/-- Every parent well that lies on the plate survives into some subwell
list. -/
theorem subwells_cover {tl : Timeline} {tp : Nat} {pwells : List String}
    {w : String} (hw : w ∈ pwells) (hp6 : w ∈ PlateDesign.get_well_ids P6) :
    ∃ ws ∈ tl.subwellsAt tp pwells, w ∈ ws := by
  obtain ⟨g, hg, hwg⟩ := @wp_cover tl tp P6 w hp6
  have hmem : w ∈ sortStr ((pwells.filter (fun x => decide (x ∈ g))).dedup) := by
    rw [mem_sortStr, List.mem_dedup, List.mem_filter]
    exact ⟨hw, by simpa using hwg⟩
  exact ⟨_, mem_subwellsAt.mpr ⟨g, hg, rfl, List.ne_nil_of_mem hmem⟩, hmem⟩

/-- Distinct subwell lists are disjoint. -/
theorem subwells_disjoint (tl : Timeline) (tp : Nat) (pwells : List String) :
    (tl.subwellsAt tp pwells).Pairwise (fun a b => ∀ w, w ∈ a → w ∉ b) := by
  unfold subwellsAt
  rw [List.pairwise_filterMap]
  refine List.Pairwise.imp ?_ (wp_disjoint tl tp P6)
  intro g1 g2 hdisj b hb b2 hb2 w hwb hwb2
  have hb' : b = sortStr ((pwells.filter (fun x => decide (x ∈ g1))).dedup) := by
    split at hb
    · exact absurd hb (by simp)
    · exact (Option.some.inj (Option.mem_def.mp hb)).symm
  have hb2' : b2 = sortStr ((pwells.filter (fun x => decide (x ∈ g2))).dedup) := by
    split at hb2
    · exact absurd hb2 (by simp)
    · exact (Option.some.inj (Option.mem_def.mp hb2)).symm
  rw [hb', mem_sortStr, List.mem_dedup, List.mem_filter] at hwb
  rw [hb2', mem_sortStr, List.mem_dedup, List.mem_filter] at hwb2
  exact hdisj w (by simpa using hwb.2) (by simpa using hwb2.2)

/-- Unfolding of the child construction at a timepoint. -/
theorem mem_buildChildren_cons {tl : Timeline} {tp : Nat} {rest : List Nat}
    {pid : String} {pwells : List String} {c : LineageNode} :
    c ∈ tl.buildChildren (tp :: rest) pid pwells ↔
      ∃ p ∈ (tl.subwellsAt tp pwells).enum,
        c = LineageNode.mk (pid ++ ":" ++ toString p.1) p.2 tp
          (tl.buildChildren rest (pid ++ ":" ++ toString p.1) p.2) := by
  rw [show tl.buildChildren (tp :: rest) pid pwells
      = (tl.subwellsAt tp pwells).enum.map (fun p =>
          LineageNode.mk (pid ++ ":" ++ toString p.1) p.2 tp
            (tl.buildChildren rest (pid ++ ":" ++ toString p.1) p.2)) from rfl]
  rw [List.mem_map]
  constructor
  · rintro ⟨p, hp, rfl⟩
    exact ⟨p, hp, rfl⟩
  · rintro ⟨p, hp, rfl⟩
    exact ⟨p, hp, rfl⟩

end Timeline

namespace Timeline

/-- Invariants of the recursively built child forest: every child owns a
subset of the parent wells and is itself a well-formed tree, siblings are
pairwise disjoint, every well appearing below lies in the parent wells and
on the plate, and conversely (when at least one timepoint remains) every
parent well on the plate survives into some child. -/
theorem buildChildren_ok (tl : Timeline) :
    ∀ (tps : List Nat) (pid : String) (pwells : List String),
      (∀ c ∈ tl.buildChildren tps pid pwells,
        (∀ w ∈ c.wells, w ∈ pwells) ∧ TreeOK c) ∧
      (tl.buildChildren tps pid pwells).Pairwise
        (fun c1 c2 => ∀ w, w ∈ c1.wells → w ∉ c2.wells) ∧
      (∀ w, (∃ c ∈ tl.buildChildren tps pid pwells, w ∈ c.wells) →
        w ∈ pwells ∧ w ∈ PlateDesign.get_well_ids P6) ∧
      (tps ≠ [] → ∀ w, w ∈ pwells → w ∈ PlateDesign.get_well_ids P6 →
        ∃ c ∈ tl.buildChildren tps pid pwells, w ∈ c.wells) := by
  intro tps
  induction tps with
  | nil =>
    intro pid pwells
    refine ⟨?_, ?_, ?_, ?_⟩
    · intro c hc
      exact absurd hc (by simp [buildChildren])
    · exact List.Pairwise.nil
    · rintro w ⟨c, hc, -⟩
      exact absurd hc (by simp [buildChildren])
    · intro h
      exact absurd rfl h
  | cons tp rest ih =>
    intro pid pwells
    refine ⟨?_, ?_, ?_, ?_⟩
    · intro c hc
      obtain ⟨p, hp, rfl⟩ := mem_buildChildren_cons.mp hc
      have hsw : p.2 ∈ tl.subwellsAt tp pwells := List.snd_mem_of_mem_enum hp
      constructor
      · intro w hw
        exact (subwells_mem hsw hw).1
      · refine TreeOK.mk _ ?_ ?_ ?_ ?_
        · intro cc hcc w hw
          exact ((ih _ p.2).1 cc hcc).1 w hw
        · exact (ih _ p.2).2.1
        · intro hne w
          constructor
          · intro hex
            exact (ih _ p.2).2.2.1 w hex
          · rintro ⟨hwp, hp6⟩
            have hrest : rest ≠ [] := by
              intro h
              rw [h] at hne
              exact hne rfl
            exact (ih _ p.2).2.2.2 hrest w hwp hp6
        · intro cc hcc
          exact ((ih _ p.2).1 cc hcc).2
    · rw [show tl.buildChildren (tp :: rest) pid pwells
          = (tl.subwellsAt tp pwells).enum.map (fun p =>
              LineageNode.mk (pid ++ ":" ++ toString p.1) p.2 tp
                (tl.buildChildren rest (pid ++ ":" ++ toString p.1) p.2)) from rfl,
        List.pairwise_map]
      have henum := pairwise_enum_of_pairwise _ (subwells_disjoint tl tp pwells)
      refine List.Pairwise.imp ?_ henum
      intro p q h w hw
      exact h w hw
    · rintro w ⟨c, hc, hw⟩
      obtain ⟨p, hp, rfl⟩ := mem_buildChildren_cons.mp hc
      exact subwells_mem (List.snd_mem_of_mem_enum hp) hw
    · intro _ w hwp hp6
      obtain ⟨ws, hws, hw⟩ := @subwells_cover tl tp pwells w hwp hp6
      obtain ⟨p, hp, hps⟩ := exists_enum_of_mem hws
      refine ⟨LineageNode.mk (pid ++ ":" ++ toString p.1) p.2 tp
          (tl.buildChildren rest (pid ++ ":" ++ toString p.1) p.2),
        mem_buildChildren_cons.mpr ⟨p, hp, rfl⟩, ?_⟩
      show w ∈ p.2
      rw [hps]
      exact hw

end Timeline

/-! ## Claim theorems -/

/-- C1 (code defect): the claimed ascending-order invariant of add_event
fails.  Adding events with timepoints 3 then 1 leaves the internal event
sequence ordered [3, 1]: the descending scan of add_event, on reaching
index 0 with a timepoint not exceeding every stored one, inserts at index 1
instead of index 0, contradicting the chronological-order documentation of
the source (lines 52 and 73). -/
theorem add_event_out_of_order_bug :
    (tlOutOfOrder.get_event_list.map (fun e => e.timepoint)) = [3, 1] ∧
    ¬ (tlOutOfOrder.get_event_list.map (fun e => e.timepoint)).Pairwise (· ≤ ·) := by
  decide

/-- C2: for every plate format with at most 52 rows and every timepoint,
get_well_permutations is a total partition of the plate well space: every
plate well lies in a group, groups contain only plate wells, groups are
pairwise disjoint, and two plate wells share a group exactly when
get_events_in_well gives them identical signatures (wells with no events
share the empty-signature group as the particular case of the equal empty
signature). -/
theorem get_well_permutations_total_partition (tl : Timeline) (tp : Nat)
    (pf : Nat × Nat) (h52 : pf.1 ≤ 52) :
    (∀ w ∈ PlateDesign.get_well_ids pf,
      ∃ g ∈ tl.get_well_permutations tp pf, w ∈ g) ∧
    (∀ g ∈ tl.get_well_permutations tp pf, ∀ w ∈ g,
      w ∈ PlateDesign.get_well_ids pf) ∧
    (tl.get_well_permutations tp pf).Pairwise
      (fun g1 g2 => ∀ w, w ∈ g1 → w ∉ g2) ∧
    (∀ w1 ∈ PlateDesign.get_well_ids pf, ∀ w2 ∈ PlateDesign.get_well_ids pf,
      ((∃ g ∈ tl.get_well_permutations tp pf, w1 ∈ g ∧ w2 ∈ g) ↔
        tl.get_events_in_well w1 tp = tl.get_events_in_well w2 tp)) :=
  ⟨fun _ hw => Timeline.wp_cover hw,
   fun _ hg _ hw => Timeline.wp_subset hg hw,
   Timeline.wp_disjoint tl tp pf,
   fun _ h1 _ h2 => Timeline.wp_same_group_iff h1 h2⟩

/-- Witness for C2 at the six-well scenario. -/
theorem get_well_permutations_total_partition_witness :
    ((2 : Nat) ≤ 52 ∧ "A01" ∈ PlateDesign.get_well_ids (2, 3)) ∧
    ∃ g ∈ tlScenario.get_well_permutations 2 (2, 3), "A01" ∈ g :=
  ⟨⟨by decide, by decide⟩,
   (get_well_permutations_total_partition tlScenario 2 (2, 3) (by decide)).1
     "A01" (by decide)⟩

/-- C3: every tree returned by get_lineage_tree on a non-empty Timeline is
well formed: children own subsets of their parent wells, siblings are
pairwise disjoint, and for every node with children the union of the child
wells equals the intersection of the node wells with the set of wells
defined at the child timepoint (which is the P6 enumeration, the geometry
hardcoded by the builder at source line 125). -/
theorem get_lineage_tree_invariants (tl : Timeline) (root : LineageNode)
    (hne : tl.events ≠ []) (h : tl.get_lineage_tree = some root) :
    TreeOK root := by
  unfold Timeline.get_lineage_tree at h
  cases htp : tl.get_unique_timepoints with
  | nil =>
    rw [htp] at h
    exact Option.noConfusion h
  | cons tp0 rest =>
    rw [htp] at h
    obtain rfl := Option.some.inj h
    refine TreeOK.mk _ ?_ ?_ ?_ ?_
    · intro c hc w hw
      exact ((tl.buildChildren_ok rest tl.stock tl.get_well_ids_all).1 c hc).1 w hw
    · exact (tl.buildChildren_ok rest tl.stock tl.get_well_ids_all).2.1
    · intro hcne w
      constructor
      · intro hex
        exact (tl.buildChildren_ok rest tl.stock tl.get_well_ids_all).2.2.1 w hex
      · rintro ⟨hwp, hp6⟩
        have hrest : rest ≠ [] := by
          intro hr
          rw [hr] at hcne
          exact hcne rfl
        exact (tl.buildChildren_ok rest tl.stock tl.get_well_ids_all).2.2.2
          hrest w hwp hp6
    · intro c hc
      exact ((tl.buildChildren_ok rest tl.stock tl.get_well_ids_all).1 c hc).2

/-- Witness for C3 at a one-event timeline. -/
theorem get_lineage_tree_invariants_witness :
    tlOne.events ≠ [] ∧ TreeOK (LineageNode.mk "U2OS" ["A01"] 1 []) :=
  ⟨by decide,
   get_lineage_tree_invariants tlOne (LineageNode.mk "U2OS" ["A01"] 1 [])
     (by decide) rfl⟩

/-- C4: on a timeline with zero events, get_unique_timepoints returns the
empty sequence and get_lineage_tree fails (none models the IndexError that
the specification names EmptyTimeline); the timeline value itself is not
modified, which the pure embedding renders by construction. -/
theorem empty_timeline_spec (tl : Timeline) (h : tl.events = []) :
    tl.get_unique_timepoints = [] ∧ tl.get_lineage_tree = none := by
  have h1 : tl.get_unique_timepoints = [] := by
    unfold Timeline.get_unique_timepoints
    rw [h]
    rfl
  refine ⟨h1, ?_⟩
  unfold Timeline.get_lineage_tree
  rw [h1]

/-- Witness for C4 at the concrete empty timeline. -/
theorem empty_timeline_spec_witness :
    tlEmpty.events = [] ∧
      (tlEmpty.get_unique_timepoints = [] ∧ tlEmpty.get_lineage_tree = none) :=
  ⟨rfl, empty_timeline_spec tlEmpty rfl⟩

/-- C5: on the six-well scenario (all wells seeded at timepoint 1, X on
A01 A02 A03 B03 and Y on A02 B02 B03 and the no-event sentinel on B01 at
timepoint 2), get_well_permutations at timepoint 2 returns exactly the four
disjoint groups A01 A03 (only X), A02 B03 (X and Y), B02 (only Y) and B01
(no event), covering all six wells. -/
theorem scenario_well_permutations :
    (tlScenario.get_well_permutations 2 P6).length = 4 ∧
    ((tlScenario.get_well_permutations 2 P6).map List.toFinset).toFinset =
      {{"A01", "A03"}, {"A02", "B03"}, {"B02"}, {"B01"}} := by
  decide

/-- C6: for every plate format with at most 52 rows, in-bounds coordinates
resolve to the entry of the well enumeration at row times colCount plus col,
and out-of-bounds coordinates fail (none models the assertion failure named
OutOfRange by the specification). -/
theorem get_well_id_from_row_col_spec (pf : Nat × Nat) (r c : Nat)
    (h52 : pf.1 ≤ 52) :
    (r < pf.1 → c < pf.2 → ∃ w,
      (PlateDesign.get_well_ids pf)[r * pf.2 + c]? = some w ∧
      PlateDesign.get_well_id_from_row_col pf (r, c) = some w) ∧
    (¬ (r < pf.1 ∧ c < pf.2) →
      PlateDesign.get_well_id_from_row_col pf (r, c) = none) := by
  constructor
  · intro hr hc
    refine ⟨wellId (alphabet.toList.getD r 'A') (c + 1),
      get_well_ids_getElem? pf r c h52 hr hc, ?_⟩
    unfold PlateDesign.get_well_id_from_row_col
    rw [if_pos ⟨hr, hc⟩]
    exact get_well_ids_getElem? pf r c h52 hr hc
  · intro hout
    unfold PlateDesign.get_well_id_from_row_col
    rw [if_neg hout]

/-- Witness for C6 at format (2, 3), coordinates (1, 2). -/
theorem get_well_id_from_row_col_spec_witness :
    ((2 : Nat) ≤ 52 ∧ (1 : Nat) < 2 ∧ (2 : Nat) < 3) ∧
    (∃ w, (PlateDesign.get_well_ids (2, 3))[1 * 3 + 2]? = some w ∧
      PlateDesign.get_well_id_from_row_col (2, 3) (1, 2) = some w) :=
  ⟨by decide,
   (get_well_id_from_row_col_spec (2, 3) 1 2 (by decide)).1 (by decide) (by decide)⟩

/-- C7 counterexample: the claim as stated fails.  On the timeline whose
single event at timepoint 1 lists only the well Z99, a well absent from the
P6 geometry registered for its plate, the well Z99 is touched by an event
(its get_events_in_well signature is non-empty), yet its event-set appears
in no group: get_event_permutations returns no group at all, because the
source only considers wells enumerated by the plate geometry of an event. -/
theorem event_permutations_offplate_counterexample :
    Timeline.get_events_in_well tlOffPlate "Z99" 1 ≠ [] ∧
    Timeline.get_events_in_well tlOffPlate "Z99" 1 ∉
      Timeline.get_event_permutations regOffPlate tlOffPlate 1 := by
  decide

/-- C7 (amended): for every timepoint whose events all have registered
plates, get_event_permutations returns exactly the distinct non-empty event
signatures observed over wells that some event at the timepoint reaches
through its plate geometry; no empty group appears, every observed non-empty
signature appears, and the returned groups are distinct.  Two reached wells
contribute the same group exactly when their geometry-restricted signatures
coincide, since the groups are precisely those signatures. -/
theorem get_event_permutations_sig_groups (reg : Registry) (tl : Timeline)
    (tp : Nat)
    (hreg : ∀ e ∈ tl.get_events_at_timepoint tp,
      (PlateDesign.get_plate_format reg e.plate_id).isSome = true) :
    (∀ g ∈ Timeline.get_event_permutations reg tl tp, g ≠ []) ∧
    (∀ g ∈ Timeline.get_event_permutations reg tl tp, ∃ w,
      Timeline.eventSig reg tl tp w ≠ [] ∧ g = Timeline.eventSig reg tl tp w) ∧
    (∀ w, Timeline.eventSig reg tl tp w ≠ [] →
      Timeline.eventSig reg tl tp w ∈ Timeline.get_event_permutations reg tl tp) ∧
    (Timeline.get_event_permutations reg tl tp).Nodup := by
  refine ⟨?_, ?_, ?_, List.nodup_dedup _⟩
  · intro g hg
    obtain ⟨w, hw, rfl⟩ := Timeline.mem_event_permutations.mp hg
    exact Timeline.eventSig_ne_nil_iff.mpr (Timeline.mem_touchedWells.mp hw)
  · intro g hg
    obtain ⟨w, hw, rfl⟩ := Timeline.mem_event_permutations.mp hg
    exact ⟨w, Timeline.eventSig_ne_nil_iff.mpr (Timeline.mem_touchedWells.mp hw),
      rfl⟩
  · intro w hw
    exact Timeline.mem_event_permutations.mpr
      ⟨w, Timeline.mem_touchedWells.mpr (Timeline.eventSig_ne_nil_iff.mp hw), rfl⟩

/-- Witness for the amended C7 at the six-well scenario. -/
theorem get_event_permutations_sig_groups_witness :
    (∀ e ∈ tlScenario.get_events_at_timepoint 2,
      (PlateDesign.get_plate_format regScenario e.plate_id).isSome = true) ∧
    Timeline.eventSig regScenario tlScenario 2 "A01" ∈
      Timeline.get_event_permutations regScenario tlScenario 2 :=
  ⟨by decide,
   (get_event_permutations_sig_groups regScenario tlScenario 2 (by decide)).2.2.1
     "A01" (by decide)⟩

/-- C8: for every plate format with at most 52 rows, the well enumeration
has length rowCount times colCount, never repeats an identifier, enumerates
in row-major order with the entry at row times colCount plus col being the
row letter followed by the 1-based column number, rendered with at least two
digits; and being a pure function, re-invocation yields the identical
sequence. -/
theorem get_well_ids_spec (pf : Nat × Nat) (h52 : pf.1 ≤ 52) :
    (PlateDesign.get_well_ids pf).length = pf.1 * pf.2 ∧
    (PlateDesign.get_well_ids pf).Nodup ∧
    (∀ r c, r < pf.1 → c < pf.2 →
      (PlateDesign.get_well_ids pf)[r * pf.2 + c]? =
        some (wellId (alphabet.toList.getD r 'A') (c + 1))) ∧
    (∀ n, 2 ≤ (pad2 n).length) ∧
    PlateDesign.get_well_ids pf = PlateDesign.get_well_ids pf :=
  ⟨get_well_ids_length pf h52, get_well_ids_nodup pf,
   fun r c hr hc => get_well_ids_getElem? pf r c h52 hr hc,
   two_le_pad2_length, rfl⟩

/-- Witness for C8 at format (2, 3). -/
theorem get_well_ids_spec_witness :
    (2 : Nat) ≤ 52 ∧ (PlateDesign.get_well_ids (2, 3)).length = 2 * 3 :=
  ⟨by decide, (get_well_ids_spec (2, 3) (by decide)).1⟩

/-- C9: a plate id bound by no registry entry fails to resolve (none models
the KeyError the specification names UnknownPlate), and after add_plate the
lookup returns the newly registered geometry whatever the previous registry
contents, so re-adding a plate id overwrites its geometry. -/
theorem plate_registry_spec (reg : Registry) (p : String) (g : Nat × Nat)
    (habs : ∀ q ∈ reg, q.1 ≠ p) :
    PlateDesign.get_plate_format reg p = none ∧
    (∀ reg2 : Registry,
      PlateDesign.get_plate_format (PlateDesign.add_plate reg2 p g) p = some g) := by
  constructor
  · unfold PlateDesign.get_plate_format
    rw [List.find?_eq_none.mpr ?_]
    · rfl
    · intro q hq
      simpa using habs q hq
  · intro reg2
    unfold PlateDesign.get_plate_format PlateDesign.add_plate
    rw [List.find?_cons_of_pos _ (by simp)]
    rfl

/-- Witness for C9: lookup of an unregistered id fails, and re-adding the
plate id q over a previous binding returns the new geometry. -/
theorem plate_registry_spec_witness :
    (∀ q ∈ ([] : Registry), q.1 ≠ "q") ∧
    PlateDesign.get_plate_format
      (PlateDesign.add_plate [("q", (5, 5))] "q" (1, 2)) "q" = some (1, 2) :=
  ⟨by simp, (plate_registry_spec [] "q" (1, 2) (by simp)).2 [("q", (5, 5))]⟩

/-- C10: get_event_permutations considers a well only when some event at the
timepoint reaches it through the well enumeration of its registered plate
geometry: every returned group is the signature of such a well, and an event
whose affected wells all lie outside its plate geometry is a member of no
returned group. -/
theorem event_permutations_geometry_restriction (reg : Registry) (tl : Timeline)
    (tp : Nat)
    (hreg : ∀ e ∈ tl.get_events_at_timepoint tp,
      (PlateDesign.get_plate_format reg e.plate_id).isSome = true) :
    (∀ g ∈ Timeline.get_event_permutations reg tl tp, ∃ w e,
      e ∈ tl.get_events_at_timepoint tp ∧ w ∈ wellsOfPlate reg e.plate_id ∧
      w ∈ e.well_ids ∧ g = Timeline.eventSig reg tl tp w) ∧
    (∀ e ∈ tl.get_events_at_timepoint tp,
      (∀ w ∈ e.well_ids, w ∉ wellsOfPlate reg e.plate_id) →
      ∀ g ∈ Timeline.get_event_permutations reg tl tp, e ∉ g) := by
  constructor
  · intro g hg
    obtain ⟨w, hw, rfl⟩ := Timeline.mem_event_permutations.mp hg
    obtain ⟨e, he, hwp, hww⟩ := Timeline.mem_touchedWells.mp hw
    exact ⟨w, e, he, hwp, hww, rfl⟩
  · intro e he hout g hg hmem
    obtain ⟨w, hw, rfl⟩ := Timeline.mem_event_permutations.mp hg
    obtain ⟨-, hwp, hww⟩ := Timeline.mem_eventSig.mp hmem
    exact hout w hww hwp

/-- Witness for C10 at the six-well scenario. -/
theorem event_permutations_geometry_restriction_witness :
    (∀ e ∈ tlScenario.get_events_at_timepoint 2,
      (PlateDesign.get_plate_format regScenario e.plate_id).isSome = true) ∧
    ∃ w e, e ∈ tlScenario.get_events_at_timepoint 2 ∧
      w ∈ wellsOfPlate regScenario e.plate_id ∧ w ∈ e.well_ids ∧
      Timeline.eventSig regScenario tlScenario 2 "A01" =
        Timeline.eventSig regScenario tlScenario 2 w :=
  ⟨by decide,
   (event_permutations_geometry_restriction regScenario tlScenario 2 (by decide)).1
     (Timeline.eventSig regScenario tlScenario 2 "A01") (by decide)⟩
